import Mathlib

/-!
Verification development for the mimir repository core: shallow embeddings of
the distributor push pipeline, the bucket compactor, the block-meta syncer,
the in-memory series iterator, the index-header reader pool persister, the
cardinality merge and the per-query series limiter, together with theorems
settling the specification claims about them.

Machine integers are modelled as Nat with explicit reductions modulo 2^w where
overflow can matter; fallible code returns Except or Option; stateful code is
explicit state passing. Go loops that run worker goroutines are modelled as
sequential folds: only the phase boundaries (a phase completes before the next
starts, the first error aborts) are relied upon by the theorems.
-/

set_option maxHeartbeats 1000000

namespace Cardinality

/-- 2^64, the modulus of Go uint64 arithmetic. -/
def U64 : Nat := 2 ^ 64

/-- Go uint64 addition (wraps modulo 2^64). -/
def addU64 (a b : Nat) : Nat := (a + b) % U64

/-- Embedding of approximateFromZones (distributor): with more than one zone
return the running maximum of the per-zone series counts (Go: loop with
var max T); with one zone return the uint64 sum divided by the replication
factor. The per-zone map is modelled as the list of its values. -/
def approximateFromZones (zoneCount replicationFactor : Nat)
    (seriesCountByZone : List Nat) : Nat :=
  if zoneCount > 1 then
    seriesCountByZone.foldl Nat.max 0
  else
    (seriesCountByZone.foldl addU64 0) / replicationFactor

theorem foldl_max_acc_le (l : List Nat) (acc : Nat) : acc ≤ l.foldl Nat.max acc := by
  induction l generalizing acc with
  | nil => exact le_refl _
  | cons a t ih => exact le_trans (Nat.le_max_left acc a) (ih (Nat.max acc a))

theorem foldl_max_ge (l : List Nat) (acc : Nat) : ∀ c ∈ l, c ≤ l.foldl Nat.max acc := by
  induction l generalizing acc with
  | nil => intro c hc; cases hc
  | cons a t ih =>
    intro c hc
    rcases List.mem_cons.mp hc with hc | hc
    · subst hc
      exact le_trans (Nat.le_max_right acc c) (foldl_max_acc_le t (Nat.max acc c))
    · exact ih (Nat.max acc a) c hc

theorem foldl_max_mem_or_acc (l : List Nat) (acc : Nat) :
    l.foldl Nat.max acc ∈ l ∨ l.foldl Nat.max acc = acc := by
  induction l generalizing acc with
  | nil => exact Or.inr rfl
  | cons a t ih =>
    simp only [List.foldl_cons]
    rcases ih (Nat.max acc a) with h | h
    · exact Or.inl (List.mem_cons_of_mem a h)
    · rcases Nat.le_total acc a with hm | hm
      · have hx : Nat.max acc a = a := max_eq_right hm
        exact Or.inl (by rw [h, hx]; exact List.mem_cons_self a t)
      · have hx : Nat.max acc a = acc := max_eq_left hm
        exact Or.inr (by rw [h, hx])

theorem foldl_addU64_eq_sum (l : List Nat) (acc : Nat) (h : acc + l.sum < U64) :
    l.foldl addU64 acc = acc + l.sum := by
  induction l generalizing acc with
  | nil => simp
  | cons a t ih =>
    simp only [List.sum_cons] at h
    have hlt : acc + a < U64 := by omega
    have hstep : addU64 acc a = acc + a := by
      unfold addU64; exact Nat.mod_eq_of_lt hlt
    simp only [List.foldl_cons, hstep]
    rw [ih (acc + a) (by omega)]
    simp only [List.sum_cons]
    omega

/-- C6: merging per-zone cardinality counts: with two or more zones the merged
per-(labelName,labelValue) count is the maximum count over zones (an element of
the list that dominates every element); with exactly one zone it is the uint64
sum of the counts divided by the replication factor (integer division). -/
theorem approximateFromZones_spec (zoneCount replicationFactor : Nat)
    (counts : List Nat) (hrf : 0 < replicationFactor) (hsum : counts.sum < U64) :
    (2 ≤ zoneCount → counts ≠ [] →
      approximateFromZones zoneCount replicationFactor counts ∈ counts ∧
      ∀ c ∈ counts, c ≤ approximateFromZones zoneCount replicationFactor counts) ∧
    (zoneCount = 1 →
      approximateFromZones zoneCount replicationFactor counts
        = counts.sum / replicationFactor) := by
  constructor
  · intro hz hne
    have hgt : zoneCount > 1 := hz
    unfold approximateFromZones
    simp only [if_pos hgt]
    refine ⟨?_, foldl_max_ge counts 0⟩
    rcases foldl_max_mem_or_acc counts 0 with h | h
    · exact h
    · rw [h]
      have hall : ∀ c ∈ counts, c = 0 := by
        intro c hc
        have := foldl_max_ge counts 0 c hc
        omega
      cases counts with
      | nil => exact absurd rfl hne
      | cons a t =>
        have : a = 0 := hall a (List.mem_cons_self a t)
        rw [← this]; exact List.mem_cons_self a t
  · intro hz
    unfold approximateFromZones
    have hng : ¬ zoneCount > 1 := by omega
    simp only [if_neg hng]
    rw [foldl_addU64_eq_sum counts 0 (by omega)]
    simp

/-- Witness for C6 at a concrete input: two zones with counts 5 and 7 merge to
the max 7; a single zone with counts 5 and 7 and replication factor 3 merges
to (5+7)/3 = 4. -/
theorem approximateFromZones_spec_witness :
    approximateFromZones 2 3 [5, 7] ∈ [5, 7] ∧
    approximateFromZones 1 3 [5, 7] = [5, 7].sum / 3 := by
  refine ⟨((approximateFromZones_spec 2 3 [5, 7] (by decide) (by decide)).1
    (by decide) (by decide)).1, (approximateFromZones_spec 1 3 [5, 7] (by decide)
    (by decide)).2 rfl⟩

end Cardinality

namespace Limiter

/-- State of a per-query limiter: the set of distinct series fingerprints seen
so far (the Go map uniqueSeries) and the configured series limit. The chunk
limits are not involved in the claim and are omitted. -/
structure QueryLimiter where
  uniqueSeries : Finset Nat
  maxSeriesPerQuery : Nat
  deriving DecidableEq

/-- Embedding of NewQueryLimiter: empty fingerprint set. -/
def NewQueryLimiter (maxSeriesPerQuery : Nat) : QueryLimiter :=
  { uniqueSeries := ∅, maxSeriesPerQuery := maxSeriesPerQuery }

/-- Embedding of QueryLimiter.AddSeries. The label hashing
(FromLabelAdaptersToLabels(...).Hash()) is a parameter hash; the Bool result is
true when the call returns nil and false when it returns the limit error.
With limit 0 the map is not touched; otherwise the fingerprint is inserted and
the error is returned when the map has grown past the limit. -/
def AddSeries {α : Type} (hash : α → Nat) (ql : QueryLimiter) (seriesLabels : α) :
    Bool × QueryLimiter :=
  if ql.maxSeriesPerQuery = 0 then (true, ql)
  else
    let fingerprint := hash seriesLabels
    let s := insert fingerprint ql.uniqueSeries
    if s.card > ql.maxSeriesPerQuery then
      (false, { ql with uniqueSeries := s })
    else
      (true, { ql with uniqueSeries := s })

/-- A sequence of AddSeries calls, returning the per-call results and the final
limiter state. -/
def runAddSeries {α : Type} (hash : α → Nat) (ql : QueryLimiter) :
    List α → List Bool × QueryLimiter
  | [] => ([], ql)
  | s :: rest =>
    let r := AddSeries hash ql s
    let rr := runAddSeries hash r.2 rest
    (r.1 :: rr.1, rr.2)

theorem runAddSeries_state {α : Type} (hash : α → Nat) (m : Nat) (hm : m ≠ 0)
    (ss : List α) (acc : Finset Nat) :
    (runAddSeries hash ⟨acc, m⟩ ss).2 = ⟨acc ∪ (ss.map hash).toFinset, m⟩ := by
  induction ss generalizing acc with
  | nil => simp [runAddSeries]
  | cons s rest ih =>
    simp only [runAddSeries]
    have hstate : (AddSeries hash ⟨acc, m⟩ s).2 = ⟨insert (hash s) acc, m⟩ := by
      unfold AddSeries
      simp only [if_neg hm]
      by_cases hc : (insert (hash s) acc).card > m <;> simp [hc]
    rw [hstate, ih]
    congr 1
    rw [List.map_cons, List.toFinset_cons, Finset.insert_union, Finset.union_insert]

theorem AddSeries_false_iff {α : Type} (hash : α → Nat) (ql : QueryLimiter) (s : α)
    (hm : ql.maxSeriesPerQuery ≠ 0) :
    (AddSeries hash ql s).1 = false ↔
      (insert (hash s) ql.uniqueSeries).card > ql.maxSeriesPerQuery := by
  unfold AddSeries
  simp only [if_neg hm]
  by_cases hc : (insert (hash s) ql.uniqueSeries).card > ql.maxSeriesPerQuery <;>
    simp [hc]

/-- C10: (a) with maxSeriesPerQuery = 0 AddSeries never errors over any call
sequence; (b) with a positive limit, the call made after a prefix of calls
errors exactly when the number of distinct fingerprints added so far (prefix
plus the new series) exceeds the limit; (c) adding a series whose fingerprint
is already tracked leaves the distinct-fingerprint count unchanged. -/
theorem addSeries_spec {α : Type} (hash : α → Nat) (m : Nat) :
    (m = 0 → ∀ ss : List α, ∀ b ∈ (runAddSeries hash (NewQueryLimiter m) ss).1,
      b = true) ∧
    (m ≠ 0 → ∀ (prefixCalls : List α) (s : α),
      ((AddSeries hash (runAddSeries hash (NewQueryLimiter m) prefixCalls).2 s).1 = false ↔
        ((prefixCalls ++ [s]).map hash).toFinset.card > m)) ∧
    (∀ (ql : QueryLimiter) (s : α), ql.maxSeriesPerQuery ≠ 0 →
      hash s ∈ ql.uniqueSeries →
      (AddSeries hash ql s).2.uniqueSeries.card = ql.uniqueSeries.card) := by
  refine ⟨?_, ?_, ?_⟩
  · intro hm ss
    subst hm
    induction ss with
    | nil => intro b hb; cases hb
    | cons s rest ih =>
      intro b hb
      have hstep : AddSeries hash (NewQueryLimiter 0) s = (true, NewQueryLimiter 0) := rfl
      simp only [runAddSeries, hstep, List.mem_cons] at hb
      rcases hb with hb | hb
      · exact hb
      · exact ih b hb
  · intro hm prefixCalls s
    have hnew : NewQueryLimiter m = ⟨∅, m⟩ := rfl
    rw [hnew, runAddSeries_state hash m hm prefixCalls ∅,
      AddSeries_false_iff hash _ s hm]
    have hset : insert (hash s) ((∅ : Finset Nat) ∪ (prefixCalls.map hash).toFinset)
        = ((prefixCalls ++ [s]).map hash).toFinset := by
      rw [Finset.empty_union, List.map_append, List.toFinset_append, Finset.union_comm]
      simp [Finset.insert_eq]
    rw [hset]
  · intro ql s hm hmem
    unfold AddSeries
    simp only [if_neg hm]
    have hins : insert (hash s) ql.uniqueSeries = ql.uniqueSeries :=
      Finset.insert_eq_self.mpr hmem
    rw [hins]
    by_cases hc : ql.uniqueSeries.card > ql.maxSeriesPerQuery <;> simp [hc]

/-- Witness for C10 at concrete inputs (fingerprints are the label values
themselves): with limit 0 every call succeeds; with limit 2, after adding
fingerprints 10 and 20, adding 30 errors because 3 distinct fingerprints
exceed the limit; re-adding a tracked fingerprint keeps the count at 2. -/
theorem addSeries_spec_witness :
    (∀ b ∈ (runAddSeries (fun n => n) (NewQueryLimiter 0) [10, 20, 30]).1, b = true) ∧
    ((AddSeries (fun n => n) (runAddSeries (fun n => n) (NewQueryLimiter 2) [10, 20]).2 30).1 = false) ∧
    ((AddSeries (fun n => n) ⟨{10, 20}, 2⟩ 10).2.uniqueSeries.card = ({10, 20} : Finset Nat).card) := by
  refine ⟨(addSeries_spec (fun n => n) 0).1 rfl [10, 20, 30], ?_, ?_⟩
  · exact ((addSeries_spec (fun n => n) 2).2.1 (by decide) [10, 20] 30).mpr (by decide)
  · exact (addSeries_spec (fun n => n) 2).2.2 ⟨{10, 20}, 2⟩ 10 (by decide) (by decide)

end Limiter

namespace Sharding

/-- A byte string: the bytes of a Go string. -/
abbrev ByteStr := List (Fin 256)

/-- A label: a (name, value) pair of byte strings. -/
structure Label where
  name : ByteStr
  value : ByteStr
  deriving DecidableEq

def U32 : Nat := 2 ^ 32

def prime32 : Nat := 16777619

def offset32 : Nat := 2166136261

/-- Modelled from the spec: ingester_client.HashAdd32 and HashNew32 are not
under src/. The spec describes the token as an order-sensitive 32-bit hash
combining the tenant and each (name,value) pair; that incremental string hash
is modelled as 32-bit FNV-1 folded over the bytes of the string, starting from
the standard offset basis (HashNew32). -/
def hashAdd32 (h : Nat) (s : ByteStr) : Nat :=
  s.foldl (fun acc c => ((acc * prime32) % U32) ^^^ c.val) h

/-- Embedding of shardByUser: hash the tenant ID into a fresh 32-bit hash. -/
def shardByUser (userID : ByteStr) : Nat := hashAdd32 offset32 userID

/-- Embedding of shardByAllLabels: fold each label name and value, in list
order, into the tenant hash. The source comments that different orders of the
same labels generate different values. -/
def shardByAllLabels (userID : ByteStr) (ls : List Label) : Nat :=
  ls.foldl (fun h l => hashAdd32 (hashAdd32 h l.name) l.value) (shardByUser userID)

/-- Byte-wise lexicographic comparison of byte strings. -/
def byteStrLe : ByteStr → ByteStr → Bool
  | [], _ => true
  | _ :: _, [] => false
  | a :: as, b :: bs =>
    if a.val < b.val then true
    else if b.val < a.val then false
    else byteStrLe as bs

def insertLabel (l : Label) : List Label → List Label
  | [] => [l]
  | x :: xs => if byteStrLe l.name x.name then l :: x :: xs else x :: insertLabel l xs

/-- Insertion sort of labels by name (the canonical order used before
sharding; the relabel middleware sorts labels before the token is computed). -/
def sortLabels (ls : List Label) : List Label := ls.foldr insertLabel []

/-- The canonical form of a label list: empty values removed (the relabel
middleware calls RemoveEmptyLabelValues) then sorted by name
(SortLabelsIfNeeded). -/
def canonical (ls : List Label) : List Label :=
  sortLabels (ls.filter (fun l => !l.value.isEmpty))

/-- C9: the token is a pure function of the tenant bytes and the ordered
(name, value) pairs: for any tenant, two label lists with the same canonical
form (sorted by name, empty values removed) shard to the same 32-bit token in
any two runs; and permuting the pairs may change the token (the hash is order
sensitive). -/
theorem shardByAllLabels_spec :
    (∀ (tenant : ByteStr) (l1 l2 : List Label), canonical l1 = canonical l2 →
      shardByAllLabels tenant (canonical l1) = shardByAllLabels tenant (canonical l2)) ∧
    (∃ (tenant : ByteStr) (ls ls2 : List Label), List.Perm ls ls2 ∧
      shardByAllLabels tenant ls ≠ shardByAllLabels tenant ls2) := by
  constructor
  · intro tenant l1 l2 h
    rw [h]
  · refine ⟨[], [⟨[65], [66]⟩, ⟨[67], [68]⟩], [⟨[67], [68]⟩, ⟨[65], [66]⟩], ?_, ?_⟩
    · exact List.Perm.swap _ _ _
    · decide

/-- Witness for C9 at a concrete input: two presentations of the same label
set (one with an extra empty-valued label, one unsorted) have the same
canonical form, so the stability half of the claim applies to them. -/
theorem shardByAllLabels_spec_witness :
    shardByAllLabels [116] (canonical [⟨[65], [66]⟩, ⟨[67], [68]⟩, ⟨[90], []⟩])
      = shardByAllLabels [116] (canonical [⟨[67], [68]⟩, ⟨[65], [66]⟩]) :=
  shardByAllLabels_spec.1 [116] [⟨[65], [66]⟩, ⟨[67], [68]⟩, ⟨[90], []⟩]
    [⟨[67], [68]⟩, ⟨[65], [66]⟩] (by decide)

end Sharding

namespace ReaderPool

/-- The state of one lazy binary reader as seen by the pool: its block ID,
whether the underlying reader is currently loaded (reader != nil), and the
last-used timestamp in nanoseconds. -/
structure LazyReader where
  blockId : String
  readerLoaded : Bool
  usedAtNanos : Nat
  deriving DecidableEq

/-- Embedding of HeadersLazyLoadedTracker.CopyLazyLoadedState: among the
tracked readers, the ones whose reader is loaded are recorded as
blockID → usedAt in milliseconds (usedAt / time.Millisecond). -/
def copyLazyLoadedState (lazyReaders : List LazyReader) : List (String × Nat) :=
  (lazyReaders.filter (fun r => r.readerLoaded)).map
    (fun r => (r.blockId, r.usedAtNanos / 1000000))

/-- File-system operations a persister can perform. -/
inductive FileOp where
  | writeFile (path : String)
  | writeTempFile (path : String)
  | fsyncFile (path : String)
  | fsyncDir (path : String)
  | rename (fromPath toPath : String)
  deriving DecidableEq

/-- Embedding of HeadersLazyLoadedTracker.Persist: a single os.WriteFile of
the marshalled state directly to the target path. -/
def persistFileOps (path : String) : List FileOp := [FileOp.writeFile path]

/-- The persist sequence the spec describes (write-to-temp + fsync-file +
fsync-dir + rename), stated from the claim for comparison with the embedded
code. -/
def specAtomicPersistFileOps (path : String) : List FileOp :=
  [FileOp.writeTempFile (path ++ ".tmp"), FileOp.fsyncFile (path ++ ".tmp"),
    FileOp.fsyncDir path, FileOp.rename (path ++ ".tmp") path]

/-- The snapshot ticker period in NewReaderPool, in seconds: the source uses
time.After(2 * time.Second), with a TODO comment saying it should be 1 minute. -/
def snapshotTickerSeconds : Nat := 2

def lazyLoadedPath : String := "lazy-loaded.json"

/-- C5: evaluation of the embedded reader-pool persister at the failing input.
The snapshot ticker fires every 2 seconds, not every 60; the copy step does
record blockID → usedAtMillis for loaded readers; but Persist performs one
plain write to the target path, not the claimed
write-to-temp + fsync-file + fsync-dir + rename sequence. -/
theorem reader_pool_snapshot_divergence :
    snapshotTickerSeconds = 2 ∧ snapshotTickerSeconds ≠ 60 ∧
    copyLazyLoadedState [⟨"b1", true, 5000000⟩, ⟨"b2", false, 7⟩] = [("b1", 5)] ∧
    persistFileOps lazyLoadedPath = [FileOp.writeFile lazyLoadedPath] ∧
    persistFileOps lazyLoadedPath ≠ specAtomicPersistFileOps lazyLoadedPath := by
  refine ⟨rfl, by decide, rfl, rfl, ?_⟩
  intro h
  simp [persistFileOps, specAtomicPersistFileOps] at h

end ReaderPool

namespace SyncerModel

/-- The object-store bucket as seen by the syncer: the set of block IDs whose
meta.json is present, and the set of block IDs having a deletion marker. -/
structure BucketState where
  metas : List Nat
  markers : List Nat
  deriving DecidableEq

/-- The syncer's in-memory state: the keys of the blocks map. -/
structure SyncerState where
  blocks : List Nat
  deriving DecidableEq

/-- Modelled from the spec: block.MetaFetcher.FetchWithoutMarkedForDeletion is
not under src/. Per §4.5 and the comment in Syncer.SyncMetas, the fetch filters
out every block that is marked for deletion, with no deletion delay. -/
def fetchWithoutMarkedForDeletion (b : BucketState) : List Nat :=
  b.metas.filter (fun id => !b.markers.contains id)

/-- Embedding of Syncer.SyncMetas: replace the in-memory blocks map with the
fetched metas (which exclude all blocks marked for deletion). -/
def syncMetas (b : BucketState) : SyncerState :=
  { blocks := fetchWithoutMarkedForDeletion b }

/-- Embedding of Syncer.GarbageCollect: for each duplicate ID (from the
deduplicate filter, a parameter here), honor cancellation, then write a
deletion marker with a detached context; on success delete the ID from the
in-memory map and continue, on failure return the error with the state as it
stands. The returned Option String is the error (none on success). -/
def garbageCollect (markOk : Nat → Bool) (cancelledAt : Nat → Bool) :
    List Nat → Nat → BucketState → SyncerState → BucketState × SyncerState × Option String
  | [], _, b, s => (b, s, none)
  | id :: ids, step, b, s =>
    if cancelledAt step then (b, s, some "context cancelled")
    else if markOk id then
      garbageCollect markOk cancelledAt ids (step + 1)
        { b with markers := id :: b.markers }
        { s with blocks := s.blocks.filter (fun x => x ≠ id) }
    else (b, s, some "mark block for deletion")

theorem garbageCollect_disjoint (markOk : Nat → Bool) (cancelledAt : Nat → Bool)
    (dups : List Nat) (step : Nat) (b : BucketState) (s : SyncerState)
    (hinv : ∀ id ∈ s.blocks, id ∉ b.markers) :
    ∀ id ∈ (garbageCollect markOk cancelledAt dups step b s).2.1.blocks,
      id ∉ (garbageCollect markOk cancelledAt dups step b s).1.markers := by
  induction dups generalizing step b s with
  | nil => exact hinv
  | cons d rest ih =>
    simp only [garbageCollect]
    by_cases hc : cancelledAt step
    · simp only [if_pos hc]; exact hinv
    · simp only [if_neg hc]
      by_cases hm : markOk d
      · simp only [if_pos hm]
        apply ih
        intro id hid
        simp only [List.mem_filter, decide_eq_true_eq] at hid
        rcases hid with ⟨hmem, hne⟩
        intro hmark
        rcases List.mem_cons.mp hmark with h | h
        · exact absurd h (by simpa using hne)
        · exact hinv id hmem h
      · simp only [if_neg hm]; exact hinv

/-- C3: after SyncMetas the in-memory block set excludes every block with a
deletion marker; and GarbageCollect preserves that disjointness, because each
duplicate is deleted from the in-memory map as soon as its marker is written
(whether the collection then completes, fails, or is cancelled). -/
theorem sync_then_gc_disjoint (b : BucketState) (dups : List Nat)
    (markOk : Nat → Bool) (cancelledAt : Nat → Bool) :
    (∀ id ∈ (syncMetas b).blocks, id ∉ b.markers) ∧
    (∀ id ∈ (garbageCollect markOk cancelledAt dups 0 b (syncMetas b)).2.1.blocks,
      id ∉ (garbageCollect markOk cancelledAt dups 0 b (syncMetas b)).1.markers) := by
  have hsync : ∀ id ∈ (syncMetas b).blocks, id ∉ b.markers := by
    intro id hid
    simp only [syncMetas, fetchWithoutMarkedForDeletion, List.mem_filter,
      Bool.not_eq_true'] at hid
    intro hmark
    rcases hid with ⟨_, hne⟩
    rw [List.contains_eq_any_beq] at hne
    simp [List.any_eq_true] at hne
    exact hne id hmark rfl
  exact ⟨hsync, garbageCollect_disjoint markOk cancelledAt dups 0 b (syncMetas b) hsync⟩

/-- Witness for C3 at a concrete input: bucket with metas 1,2,3 where 3 is
already marked; the deduplicate filter reports 2 as duplicate; after sync and
garbage collection, block 1 is still held and is unmarked, while 2 and 3 are
not held. -/
theorem sync_then_gc_disjoint_witness :
    1 ∉ (garbageCollect (fun _ => true) (fun _ => false) [2] 0
        ⟨[1, 2, 3], [3]⟩ (syncMetas ⟨[1, 2, 3], [3]⟩)).1.markers :=
  (sync_then_gc_disjoint ⟨[1, 2, 3], [3]⟩ [2] (fun _ => true) (fun _ => false)).2
    1 (by decide)

end SyncerModel

namespace HADedupe

/-- One time series of a write request: its label pairs and the counts of its
float samples and histogram samples. -/
structure Series where
  labelPairs : List (String × String)
  samples : Nat
  histograms : Nat
  deriving DecidableEq

/-- Possible results of HATracker.checkReplica (whose body is not under src/):
the sample is accepted, or rejected because the replica is not the elected one,
or rejected because the tenant has too many clusters, or a KV error occurred. -/
inductive TrackerOutcome where
  | accept
  | replicasNotMatch
  | tooManyClusters
  | otherError
  deriving DecidableEq

/-- Per-tenant configuration and tracker behavior consulted by the middleware. -/
structure HAEnv where
  acceptHASamples : Bool
  haReplicaLabel : String
  haClusterLabel : String
  maxLabelValueLength : Nat
  trackerOutcome : TrackerOutcome

/-- Look up the value of a label by name; the empty string when absent. -/
def lookupLabel (name : String) (ls : List (String × String)) : String :=
  match ls.find? (fun p => p.1 == name) with
  | some p => p.2
  | none => ""

/-- Modelled from the spec: findHALabels is not under src/; it extracts the
values of the HA cluster and replica labels from a label set. -/
def findHALabels (replicaLabel clusterLabel : String)
    (ls : List (String × String)) : String × String :=
  (lookupLabel clusterLabel ls, lookupLabel replicaLabel ls)

/-- Modelled from the spec: PreallocTimeseries.RemoveLabel is not under src/;
it removes the label with the given name from the series. -/
def removeLabel (name : String) (s : Series) : Series :=
  { s with labelPairs := s.labelPairs.filter (fun p => p.1 != name) }

/-- Embedding of Distributor.checkSample: accept without stripping when either
HA label is missing or the replica value exceeds the length limit; otherwise
consult the HA tracker: accept-and-strip on success, propagate its rejection
otherwise. The Bool is removeReplicaLabel. -/
def checkSample (env : HAEnv) (cluster replica : String) :
    Bool × Option TrackerOutcome :=
  if cluster = "" ∨ replica = "" then (false, none)
  else if replica.length > env.maxLabelValueLength then (false, none)
  else
    match env.trackerOutcome with
    | TrackerOutcome.accept => (true, none)
    | o => (false, some o)

/-- The observable result of the middleware: the request forwarded to the next
push stage, or an HTTP rejection with a status code, or another error. -/
inductive PushResult where
  | forwarded (req : List Series)
  | rejected (httpStatus : Nat)
  | errorOther
  deriving DecidableEq

/-- Counters incremented by the middleware. -/
structure HACounters where
  dedupedSamples : Nat
  discardedTooManyHaClusters : Nat
  nonHASamples : Nat
  deriving DecidableEq

def zeroCounters : HACounters := ⟨0, 0, 0⟩

/-- Embedding of Distributor.prePushHaDedupeMiddleware: skip when the request
is empty or HA handling is off for the tenant; find the HA labels on the first
series; count the float plus histogram samples of the whole request; check the
replica; on replicasNotMatch respond 202 and count the samples as deduped; on
tooManyClusters respond 400 and count them as discarded; on another tracker
error fail; on accept with both labels present strip the replica label from
every series and forward; otherwise count the samples as non-HA and forward
unchanged. -/
def prePushHaDedupeMiddleware (env : HAEnv) (req : List Series) :
    PushResult × HACounters :=
  match req with
  | [] => (PushResult.forwarded req, zeroCounters)
  | first :: _ =>
    if env.acceptHASamples = false then (PushResult.forwarded req, zeroCounters)
    else
      let cr := findHALabels env.haReplicaLabel env.haClusterLabel first.labelPairs
      let numSamples := (req.map (fun ts => ts.samples + ts.histograms)).sum
      match checkSample env cr.1 cr.2 with
      | (_, some TrackerOutcome.replicasNotMatch) =>
        (PushResult.rejected 202, { zeroCounters with dedupedSamples := numSamples })
      | (_, some TrackerOutcome.tooManyClusters) =>
        (PushResult.rejected 400,
          { zeroCounters with discardedTooManyHaClusters := numSamples })
      | (_, some _) => (PushResult.errorOther, zeroCounters)
      | (true, none) =>
        (PushResult.forwarded (req.map (removeLabel env.haReplicaLabel)), zeroCounters)
      | (false, none) =>
        (PushResult.forwarded req, { zeroCounters with nonHASamples := numSamples })

/-- C7: for a non-empty request of an HA tenant whose first series carries
non-empty cluster and replica labels within the length limit: when the tracker
rejects because the replica is not the elected one, the middleware responds
HTTP 202 and adds the total float-plus-histogram sample count of the request
to the deduped counter; when the tracker accepts, it forwards the request with
the replica label stripped from every series (and counts nothing). -/
theorem prePushHaDedupe_spec (env : HAEnv) (first : Series) (rest : List Series)
    (cluster replica : String)
    (hha : env.acceptHASamples = true)
    (hfind : findHALabels env.haReplicaLabel env.haClusterLabel first.labelPairs
      = (cluster, replica))
    (hcl : cluster ≠ "") (hrep : replica ≠ "")
    (hlen : replica.length ≤ env.maxLabelValueLength) :
    (env.trackerOutcome = TrackerOutcome.replicasNotMatch →
      prePushHaDedupeMiddleware env (first :: rest)
        = (PushResult.rejected 202,
            { zeroCounters with dedupedSamples :=
                ((first :: rest).map (fun ts => ts.samples + ts.histograms)).sum })) ∧
    (env.trackerOutcome = TrackerOutcome.accept →
      prePushHaDedupeMiddleware env (first :: rest)
        = (PushResult.forwarded ((first :: rest).map (removeLabel env.haReplicaLabel)),
            zeroCounters) ∧
      ∀ s ∈ ((first :: rest).map (removeLabel env.haReplicaLabel)),
        ∀ p ∈ s.labelPairs, p.1 ≠ env.haReplicaLabel) := by
  have hcheck : ∀ o, env.trackerOutcome = o →
      checkSample env cluster replica
        = (match o with
           | TrackerOutcome.accept => (true, none)
           | o => (false, some o)) := by
    intro o ho
    unfold checkSample
    have h1 : ¬ (cluster = "" ∨ replica = "") := by
      intro h; rcases h with h | h
      · exact hcl h
      · exact hrep h
    rw [if_neg h1, if_neg (by omega)]
    rw [ho]
  constructor
  · intro ht
    unfold prePushHaDedupeMiddleware
    simp only [hha, Bool.true_eq_false, if_neg, if_false, hfind]
    rw [hcheck TrackerOutcome.replicasNotMatch ht]
  · intro ht
    constructor
    · unfold prePushHaDedupeMiddleware
      simp only [hha, Bool.true_eq_false, if_neg, if_false, hfind]
      rw [hcheck TrackerOutcome.accept ht]
    · intro s hs p hp heq
      rcases List.mem_map.mp hs with ⟨s0, _, hs0⟩
      rw [← hs0] at hp
      simp only [removeLabel, List.mem_filter] at hp
      rcases hp with ⟨_, hbne⟩
      rw [heq] at hbne
      simp at hbne

/-- Witness for C7 at a concrete input: a two-series request with HA labels
cluster=c1, replica=r2 on the first series; with the tracker rejecting the
replica, the middleware responds 202 and counts 5 = (2+1)+(1+1) deduped
samples. -/
theorem prePushHaDedupe_spec_witness :
    prePushHaDedupeMiddleware
      ⟨true, "__replica__", "cluster", 10, TrackerOutcome.replicasNotMatch⟩
      [⟨[("cluster", "c1"), ("__replica__", "r2")], 2, 1⟩, ⟨[("job", "j")], 1, 1⟩]
      = (PushResult.rejected 202, { zeroCounters with dedupedSamples := 5 }) := by
  have h := (prePushHaDedupe_spec
    ⟨true, "__replica__", "cluster", 10, TrackerOutcome.replicasNotMatch⟩
    ⟨[("cluster", "c1"), ("__replica__", "r2")], 2, 1⟩ [⟨[("job", "j")], 1, 1⟩]
    "c1" "r2" rfl rfl (by decide) (by decide) (by decide)).1 rfl
  simpa using h

end HADedupe

namespace Validation

/-- One time series of a write request as seen by the validation middleware:
its label count, the counts of its float samples, histogram samples and
exemplars, and an identity used by the per-series validator. -/
structure Series where
  labelsCount : Nat
  samples : Nat
  histograms : Nat
  exemplars : Nat
  sid : Nat
  deriving DecidableEq

/-- The per-tenant validators and the rate limiter consulted by the
middleware. validateSeries (Distributor.validateSeries, whose label/sample
checks live outside src/) may modify the series in place (it drops stale
exemplars), so it returns the possibly-modified series on success. -/
structure ValEnv where
  validateSeries : Series → Except String Series
  validateMetadata : Nat → Option String
  rateAllow : Nat → Bool

/-- Embedding of the series loop of prePushValidationMiddleware: series with
no labels are removed silently; series failing validation are removed and the
first failure is kept as the partial error; valid series are kept and their
samples, histograms and exemplars are counted. Returns
(kept series, first error, validatedSamples, validatedExemplars). -/
def validateSeriesList (env : ValEnv) :
    List Series → List Series × Option String × Nat × Nat
  | [] => ([], none, 0, 0)
  | ts :: rest =>
    if ts.labelsCount = 0 then validateSeriesList env rest
    else
      match env.validateSeries ts with
      | Except.error e =>
        let r := validateSeriesList env rest
        (r.1, some e, r.2.2.1, r.2.2.2)
      | Except.ok ts2 =>
        let r := validateSeriesList env rest
        (ts2 :: r.1, r.2.1, ts2.samples + ts2.histograms + r.2.2.1,
          ts2.exemplars + r.2.2.2)

/-- Embedding of the metadata loop: failing entries are removed and the first
failure kept; valid entries are kept and counted. Returns
(kept metadata, first error, validatedMetadata). -/
def validateMetadataList (env : ValEnv) :
    List Nat → List Nat × Option String × Nat
  | [] => ([], none, 0)
  | m :: rest =>
    match env.validateMetadata m with
    | some e =>
      let r := validateMetadataList env rest
      (r.1, some e, r.2.2)
    | none =>
      let r := validateMetadataList env rest
      (m :: r.1, r.2.1, r.2.2 + 1)

/-- The observable result of the middleware: success (the request forwarded to
the dispatch stage, returned together with the first partial error), an early
response without dispatch (when nothing validated survives), or a 429
rate-limit rejection. -/
inductive PushOutcome where
  | success (forwardedSeries : List Series) (forwardedMetadata : List Nat)
      (firstErr : Option String)
  | earlyResponse (firstErr : Option String)
  | rateLimited
  deriving DecidableEq

/-- Embedding of Distributor.prePushValidationMiddleware: validate series and
metadata, return early (without dispatch) when validatedSamples and
validatedMetadata are both zero, check the rate limiter on
validatedSamples + validatedExemplars + validatedMetadata, then forward the
cleaned request and return the first partial error alongside the response. -/
def prePushValidationMiddleware (env : ValEnv) (seriesList : List Series)
    (metadataList : List Nat) : PushOutcome :=
  let rs := validateSeriesList env seriesList
  let rm := validateMetadataList env metadataList
  let firstErr := match rs.2.1 with
    | some e => some e
    | none => rm.2.1
  if rs.2.2.1 = 0 ∧ rm.2.2 = 0 then PushOutcome.earlyResponse firstErr
  else
    if env.rateAllow (rs.2.2.1 + rs.2.2.2 + rm.2.2) = false then
      PushOutcome.rateLimited
    else
      PushOutcome.success rs.1 rm.1 firstErr

/-- The first validation error of the series list, stated from the claim: scan
the series in request order and return the error of the first series (with
labels) that fails validation. -/
def specFirstSeriesError (env : ValEnv) : List Series → Option String
  | [] => none
  | ts :: rest =>
    if ts.labelsCount = 0 then specFirstSeriesError env rest
    else
      match env.validateSeries ts with
      | Except.error e => some e
      | Except.ok _ => specFirstSeriesError env rest

/-- The first validation error of the metadata list, stated from the claim. -/
def specFirstMetadataError (env : ValEnv) : List Nat → Option String
  | [] => none
  | m :: rest =>
    match env.validateMetadata m with
    | some e => some e
    | none => specFirstMetadataError env rest

/-- Claim C8 as stated, at one input: if some series with labels fails
validation and some series with labels passes, then the middleware succeeds
(dispatches) and every valid series is forwarded. -/
def C8ClaimAt (env : ValEnv) (sl : List Series) (ml : List Nat) : Prop :=
  (∃ ts ∈ sl, ts.labelsCount ≠ 0 ∧ ∃ e, env.validateSeries ts = Except.error e) →
  (∃ ts ∈ sl, ts.labelsCount ≠ 0 ∧ ∃ ts2, env.validateSeries ts = Except.ok ts2) →
  ∃ keepS keepM ferr,
    prePushValidationMiddleware env sl ml = PushOutcome.success keepS keepM ferr ∧
    ∀ ts ∈ sl, ts.labelsCount ≠ 0 →
      ∀ ts2, env.validateSeries ts = Except.ok ts2 → ts2 ∈ keepS

/-- A validator that rejects series id 1 and accepts everything else
unchanged; metadata always valid; rate limiter always allows. -/
def cexEnv : ValEnv :=
  { validateSeries := fun ts =>
      if ts.sid = 1 then Except.error "bad series" else Except.ok ts
    validateMetadata := fun _ => none
    rateAllow := fun _ => true }

/-- A series (id 1) with one label and one sample that fails validation. -/
def cexBadSeries : Series := ⟨1, 1, 0, 0, 1⟩

/-- A valid series (id 2) with one label and no samples, histograms or
exemplars. -/
def cexEmptySeries : Series := ⟨1, 0, 0, 0, 2⟩

/-- Counterexample to C8 as stated: with one invalid series and one valid
series that carries no samples, validatedSamples and validatedMetadata are
both zero, so the middleware returns early with the validation error and the
valid series is never forwarded to dispatch. -/
theorem prePushValidation_claim_cex :
    ¬ C8ClaimAt cexEnv [cexBadSeries, cexEmptySeries] [] := by
  intro h
  rcases h ⟨cexBadSeries, by simp, by decide, "bad series", rfl⟩
      ⟨cexEmptySeries, by simp, by decide, cexEmptySeries, rfl⟩ with
    ⟨ks, km, fe, heq, _⟩
  have hrun : prePushValidationMiddleware cexEnv [cexBadSeries, cexEmptySeries] []
      = PushOutcome.earlyResponse (some "bad series") := rfl
  rw [hrun] at heq
  simp at heq

theorem validateSeriesList_firstErr (env : ValEnv) (l : List Series) :
    (validateSeriesList env l).2.1 = specFirstSeriesError env l := by
  induction l with
  | nil => rfl
  | cons ts rest ih =>
    simp only [validateSeriesList, specFirstSeriesError]
    by_cases hl : ts.labelsCount = 0
    · simp only [if_pos hl]; exact ih
    · simp only [if_neg hl]
      cases env.validateSeries ts with
      | error e => rfl
      | ok ts2 => exact ih

theorem validateMetadataList_firstErr (env : ValEnv) (l : List Nat) :
    (validateMetadataList env l).2.1 = specFirstMetadataError env l := by
  induction l with
  | nil => rfl
  | cons m rest ih =>
    simp only [validateMetadataList, specFirstMetadataError]
    cases env.validateMetadata m with
    | some e => rfl
    | none => exact ih

theorem validateMetadataList_cons_some (env : ValEnv) (m : Nat) (rest : List Nat)
    (e : String) (he : env.validateMetadata m = some e) :
    validateMetadataList env (m :: rest)
      = ((validateMetadataList env rest).1, some e,
         (validateMetadataList env rest).2.2) := by
  simp only [validateMetadataList, he]

theorem validateMetadataList_cons_none (env : ValEnv) (m : Nat) (rest : List Nat)
    (he : env.validateMetadata m = none) :
    validateMetadataList env (m :: rest)
      = (m :: (validateMetadataList env rest).1, (validateMetadataList env rest).2.1,
         (validateMetadataList env rest).2.2 + 1) := by
  simp only [validateMetadataList, he]

theorem validateMetadataList_count_pos (env : ValEnv) (l : List Nat)
    (h : ∃ m ∈ l, env.validateMetadata m = none) :
    0 < (validateMetadataList env l).2.2 := by
  induction l with
  | nil => rcases h with ⟨m, hm, _⟩; cases hm
  | cons x rest ih =>
    rcases h with ⟨m, hm, hok⟩
    cases hx : env.validateMetadata x with
    | some e =>
      rw [validateMetadataList_cons_some env x rest e hx]
      show 0 < (validateMetadataList env rest).2.2
      rcases List.mem_cons.mp hm with rfl | hm2
      · rw [hx] at hok; cases hok
      · exact ih ⟨m, hm2, hok⟩
    | none =>
      rw [validateMetadataList_cons_none env x rest hx]
      show 0 < (validateMetadataList env rest).2.2 + 1
      omega

theorem validateMetadataList_keeps_valid (env : ValEnv) (l : List Nat) :
    ∀ m ∈ l, env.validateMetadata m = none → m ∈ (validateMetadataList env l).1 := by
  induction l with
  | nil => intro m hm; cases hm
  | cons x rest ih =>
    intro m hm hok
    cases hx : env.validateMetadata x with
    | some e =>
      rw [validateMetadataList_cons_some env x rest e hx]
      show m ∈ (validateMetadataList env rest).1
      rcases List.mem_cons.mp hm with rfl | hm2
      · rw [hx] at hok; cases hok
      · exact ih m hm2 hok
    | none =>
      rw [validateMetadataList_cons_none env x rest hx]
      show m ∈ x :: (validateMetadataList env rest).1
      rcases List.mem_cons.mp hm with rfl | hm2
      · exact List.mem_cons_self _ _
      · exact List.mem_cons_of_mem _ (ih m hm2 hok)

theorem validateMetadataList_only_valid (env : ValEnv) (l : List Nat) :
    ∀ m ∈ (validateMetadataList env l).1, m ∈ l ∧ env.validateMetadata m = none := by
  induction l with
  | nil => intro m hm; cases hm
  | cons x rest ih =>
    intro m hm
    cases hx : env.validateMetadata x with
    | some e =>
      rw [validateMetadataList_cons_some env x rest e hx] at hm
      have hm2 : m ∈ (validateMetadataList env rest).1 := hm
      rcases ih m hm2 with ⟨ha, hb⟩
      exact ⟨List.mem_cons_of_mem x ha, hb⟩
    | none =>
      rw [validateMetadataList_cons_none env x rest hx] at hm
      have hm2 : m ∈ x :: (validateMetadataList env rest).1 := hm
      rcases List.mem_cons.mp hm2 with rfl | hm3
      · exact ⟨List.mem_cons_self _ _, hx⟩
      · rcases ih m hm3 with ⟨ha, hb⟩
        exact ⟨List.mem_cons_of_mem x ha, hb⟩

theorem validateSeriesList_keeps_valid (env : ValEnv) (l : List Series) :
    ∀ ts ∈ l, ts.labelsCount ≠ 0 → ∀ ts2, env.validateSeries ts = Except.ok ts2 →
      ts2 ∈ (validateSeriesList env l).1 := by
  induction l with
  | nil => intro ts hts; cases hts
  | cons hd rest ih =>
    intro ts hts hl ts2 hok
    simp only [validateSeriesList]
    rcases List.mem_cons.mp hts with hts | hts
    · subst hts
      simp only [if_neg hl, hok]
      exact List.mem_cons_self _ _
    · by_cases hhd : hd.labelsCount = 0
      · simp only [if_pos hhd]
        exact ih ts hts hl ts2 hok
      · simp only [if_neg hhd]
        cases env.validateSeries hd with
        | error e => exact ih ts hts hl ts2 hok
        | ok hd2 => exact List.mem_cons_of_mem _ (ih ts hts hl ts2 hok)

theorem validateSeriesList_only_valid (env : ValEnv) (l : List Series) :
    ∀ ts2 ∈ (validateSeriesList env l).1,
      ∃ ts ∈ l, ts.labelsCount ≠ 0 ∧ env.validateSeries ts = Except.ok ts2 := by
  induction l with
  | nil => intro ts2 hts2; cases hts2
  | cons hd rest ih =>
    intro ts2 hts2
    simp only [validateSeriesList] at hts2
    by_cases hhd : hd.labelsCount = 0
    · rw [if_pos hhd] at hts2
      rcases ih ts2 hts2 with ⟨ts, hmem, hl, hok⟩
      exact ⟨ts, List.mem_cons_of_mem _ hmem, hl, hok⟩
    · rw [if_neg hhd] at hts2
      cases hv : env.validateSeries hd with
      | error e =>
        rw [hv] at hts2
        rcases ih ts2 hts2 with ⟨ts, hmem, hl, hok⟩
        exact ⟨ts, List.mem_cons_of_mem _ hmem, hl, hok⟩
      | ok hd2 =>
        rw [hv] at hts2
        rcases List.mem_cons.mp hts2 with h | h
        · exact ⟨hd, List.mem_cons_self _ _, hhd, by rw [hv, h]⟩
        · rcases ih ts2 h with ⟨ts, hmem, hl, hok⟩
          exact ⟨ts, List.mem_cons_of_mem _ hmem, hl, hok⟩

theorem validateSeriesList_cons_skip (env : ValEnv) (ts : Series)
    (rest : List Series) (hl : ts.labelsCount = 0) :
    validateSeriesList env (ts :: rest) = validateSeriesList env rest := by
  simp only [validateSeriesList, if_pos hl]

theorem validateSeriesList_cons_err (env : ValEnv) (ts : Series)
    (rest : List Series) (e : String) (hl : ts.labelsCount ≠ 0)
    (he : env.validateSeries ts = Except.error e) :
    (validateSeriesList env (ts :: rest)).2.2.1
      = (validateSeriesList env rest).2.2.1 := by
  simp only [validateSeriesList, if_neg hl, he]

theorem validateSeriesList_cons_ok (env : ValEnv) (ts ts2 : Series)
    (rest : List Series) (hl : ts.labelsCount ≠ 0)
    (hok : env.validateSeries ts = Except.ok ts2) :
    (validateSeriesList env (ts :: rest)).2.2.1
      = ts2.samples + ts2.histograms + (validateSeriesList env rest).2.2.1 := by
  simp only [validateSeriesList, if_neg hl, hok]

theorem validateSeriesList_samples_pos (env : ValEnv) (l : List Series)
    (h : ∃ ts ∈ l, ts.labelsCount ≠ 0 ∧ ∃ ts2, env.validateSeries ts = Except.ok ts2 ∧
      0 < ts2.samples + ts2.histograms) :
    0 < (validateSeriesList env l).2.2.1 := by
  induction l with
  | nil => rcases h with ⟨ts, hts, _⟩; cases hts
  | cons hd rest ih =>
    rcases h with ⟨ts, hts, hl, ts2, hok, hpos⟩
    rcases List.mem_cons.mp hts with rfl | hts
    · rw [validateSeriesList_cons_ok env ts ts2 rest hl hok]
      omega
    · by_cases hhd : hd.labelsCount = 0
      · rw [validateSeriesList_cons_skip env hd rest hhd]
        exact ih ⟨ts, hts, hl, ts2, hok, hpos⟩
      · cases hv : env.validateSeries hd with
        | error e =>
          rw [validateSeriesList_cons_err env hd rest e hhd hv]
          exact ih ⟨ts, hts, hl, ts2, hok, hpos⟩
        | ok hd2 =>
          rw [validateSeriesList_cons_ok env hd hd2 rest hhd hv]
          have := ih ⟨ts, hts, hl, ts2, hok, hpos⟩
          omega

/-- C8 amended: when some series (or metadata entries) fail validation while
at least one passing series (with labels) still carries at least one sample or
histogram, or at least one metadata entry passes, and the rate limiter admits
the request's validated sample, exemplar and metadata counts, the middleware
forwards exactly the valid series and metadata entries to the dispatch stage
and returns the first validation error encountered (series errors first, then
metadata errors); a single invalid series does not fail the whole write. If
instead every surviving series is empty of samples and histograms and no
metadata survives, the middleware answers early without dispatching. -/
theorem prePushValidation_partial_spec (env : ValEnv) (sl : List Series)
    (ml : List Nat)
    (hrate : env.rateAllow ((validateSeriesList env sl).2.2.1
      + (validateSeriesList env sl).2.2.2 + (validateMetadataList env ml).2.2) = true)
    (hvalid : (∃ ts ∈ sl, ts.labelsCount ≠ 0 ∧
        ∃ ts2, env.validateSeries ts = Except.ok ts2 ∧ 0 < ts2.samples + ts2.histograms) ∨
      (∃ m ∈ ml, env.validateMetadata m = none)) :
    ∃ keepS keepM,
      prePushValidationMiddleware env sl ml
        = PushOutcome.success keepS keepM
            (match specFirstSeriesError env sl with
             | some e => some e
             | none => specFirstMetadataError env ml) ∧
      (∀ ts ∈ sl, ts.labelsCount ≠ 0 →
        ∀ ts2, env.validateSeries ts = Except.ok ts2 → ts2 ∈ keepS) ∧
      (∀ ts2 ∈ keepS, ∃ ts ∈ sl, ts.labelsCount ≠ 0 ∧
        env.validateSeries ts = Except.ok ts2) ∧
      (∀ m ∈ ml, env.validateMetadata m = none → m ∈ keepM) ∧
      (∀ m ∈ keepM, m ∈ ml ∧ env.validateMetadata m = none) := by
  refine ⟨(validateSeriesList env sl).1, (validateMetadataList env ml).1, ?_,
    validateSeriesList_keeps_valid env sl, validateSeriesList_only_valid env sl,
    validateMetadataList_keeps_valid env ml, validateMetadataList_only_valid env ml⟩
  have hpos : 0 < (validateSeriesList env sl).2.2.1 ∨
      0 < (validateMetadataList env ml).2.2 := by
    rcases hvalid with h | h
    · exact Or.inl (validateSeriesList_samples_pos env sl h)
    · exact Or.inr (validateMetadataList_count_pos env ml h)
  unfold prePushValidationMiddleware
  rw [if_neg (by omega)]
  rw [hrate]
  simp only [Bool.true_eq_false, if_false, if_neg]
  rw [validateSeriesList_firstErr, validateMetadataList_firstErr]

/-- Witness for C8 at a concrete input: one invalid series (id 1) and one
valid series (id 2) with a sample; the middleware succeeds, forwards the
valid series, and returns the validation error of series 1. -/
theorem prePushValidation_partial_spec_witness :
    ∃ keepS keepM,
      prePushValidationMiddleware cexEnv [cexBadSeries, ⟨1, 1, 0, 0, 2⟩] []
        = PushOutcome.success keepS keepM
            (match specFirstSeriesError cexEnv [cexBadSeries, ⟨1, 1, 0, 0, 2⟩] with
             | some e => some e
             | none => specFirstMetadataError cexEnv []) ∧
      (∀ ts ∈ [cexBadSeries, (⟨1, 1, 0, 0, 2⟩ : Series)], ts.labelsCount ≠ 0 →
        ∀ ts2, cexEnv.validateSeries ts = Except.ok ts2 → ts2 ∈ keepS) ∧
      (∀ ts2 ∈ keepS, ∃ ts ∈ [cexBadSeries, (⟨1, 1, 0, 0, 2⟩ : Series)],
        ts.labelsCount ≠ 0 ∧ cexEnv.validateSeries ts = Except.ok ts2) ∧
      (∀ m ∈ ([] : List Nat), cexEnv.validateMetadata m = none → m ∈ keepM) ∧
      (∀ m ∈ keepM, m ∈ ([] : List Nat) ∧ cexEnv.validateMetadata m = none) :=
  prePushValidation_partial_spec cexEnv [cexBadSeries, ⟨1, 1, 0, 0, 2⟩] []
    rfl
    (Or.inl ⟨⟨1, 1, 0, 0, 2⟩, by simp, by decide, ⟨1, 1, 0, 0, 2⟩, rfl, by decide⟩)

end Validation

namespace Compactor

/-- Block metadata relevant to a compaction job: the block ULID (0 models the
zero ULID, which never identifies a real block) and its sample count. -/
structure Meta where
  ulid : Nat
  numSamples : Nat
  deriving DecidableEq

/-- Observable bucket events of a compaction job, in order: an output block
passing verification, an output block uploaded, a deletion marker written for
a block. -/
inductive Event where
  | verified (id : Nat)
  | uploaded (id : Nat)
  | markedForDeletion (id : Nat)
  deriving DecidableEq

/-- The environment of one runCompactionJob call: the planner result, the
outcome of downloading and health-checking each source block, the compaction
result (the compIDs slice: one ID for a plain compaction, one per shard for a
splitting one), and the success of each per-output and per-source bucket
operation. -/
structure CompactionEnv where
  planResult : Except String (List Meta)
  downloadAndCheck : Meta → Except String Unit
  compactResult : Except String (List Nat)
  injectMetaOk : Nat → Bool
  removeTombstonesOk : Nat → Bool
  verifyOk : Nat → Bool
  uploadOk : Nat → Bool
  markOk : Nat → Bool

/-- Embedding of hasNonZeroULIDs. -/
def hasNonZeroULIDs (ids : List Nat) : Bool := ids.any (fun id => id != 0)

/-- The download phase (concurrency.ForEachJob over the plan, modelled
sequentially): downloads and health-checks every source; the first failure
fails the phase. -/
def downloadPhase (env : CompactionEnv) : List Meta → Except String Unit
  | [] => Except.ok ()
  | m :: ms =>
    match env.downloadAndCheck m with
    | Except.error e => Except.error e
    | Except.ok _ => downloadPhase env ms

/-- Processing of one output block during the upload phase: inject the Thanos
meta, remove the tombstones file, verify the result block, then upload it.
Returns the bucket events performed and the error, if any. -/
def uploadOne (env : CompactionEnv) (id : Nat) : List Event × Option String :=
  if env.injectMetaOk id = false then ([], some "failed to finalize the block")
  else if env.removeTombstonesOk id = false then ([], some "remove tombstones")
  else if env.verifyOk id = false then ([], some "invalid result block")
  else if env.uploadOk id = false then ([Event.verified id], some "upload failed")
  else ([Event.verified id, Event.uploaded id], none)

/-- The upload phase (concurrency.ForEachJob over the non-zero output blocks,
modelled sequentially): the first failure fails the phase; events performed so
far are kept. -/
def uploadPhase (env : CompactionEnv) : List Nat → List Event × Option String
  | [] => ([], none)
  | id :: ids =>
    let r1 := uploadOne env id
    match r1.2 with
    | some e => (r1.1, some e)
    | none =>
      let r := uploadPhase env ids
      (r1.1 ++ r.1, r.2)

/-- The final marking loop: write a deletion marker for every source block of
the plan (deleteBlock); the first failure aborts the loop with an error. -/
def markSourcesPhase (env : CompactionEnv) : List Meta → List Event × Option String
  | [] => ([], none)
  | m :: ms =>
    if env.markOk m.ulid then
      let r := markSourcesPhase env ms
      (Event.markedForDeletion m.ulid :: r.1, r.2)
    else ([], some "mark old block for deletion from bucket")

/-- The marking loop of the all-outputs-empty path: only sources with zero
samples are marked, and a marking failure merely logs a warning and
continues. -/
def markEmptySourcesPhase (env : CompactionEnv) : List Meta → List Event
  | [] => []
  | m :: ms =>
    let rest := markEmptySourcesPhase env ms
    if m.numSamples = 0 ∧ env.markOk m.ulid = true then
      Event.markedForDeletion m.ulid :: rest
    else rest

/-- The result of a successful runCompactionJob: the shouldRerun flag and the
compIDs returned to the caller. -/
structure JobResult where
  shouldRerun : Bool
  compIDs : List Nat
  deriving DecidableEq

/-- Embedding of BucketCompactor.runCompactionJob: plan (empty plan is a
no-op); download and health-check the sources; compact; if every output block
is the zero ULID, mark only the zero-sample sources (best effort) and rerun;
otherwise finalize, verify and upload every non-zero output, and only after
the whole upload phase has succeeded mark every source block of the plan for
deletion. The second component is the ordered trace of bucket events. -/
def runCompactionJob (env : CompactionEnv) : Except String JobResult × List Event :=
  match env.planResult with
  | Except.error e => (Except.error e, [])
  | Except.ok toCompact =>
    if toCompact.isEmpty then (Except.ok ⟨false, []⟩, [])
    else
      match downloadPhase env toCompact with
      | Except.error e => (Except.error e, [])
      | Except.ok _ =>
        match env.compactResult with
        | Except.error e => (Except.error e, [])
        | Except.ok compIDs =>
          if hasNonZeroULIDs compIDs = false then
            (Except.ok ⟨true, []⟩, markEmptySourcesPhase env toCompact)
          else
            let up := uploadPhase env (compIDs.filter (fun id => id != 0))
            match up.2 with
            | some e => (Except.error e, up.1)
            | none =>
              let mrk := markSourcesPhase env toCompact
              match mrk.2 with
              | some e => (Except.error e, up.1 ++ mrk.1)
              | none => (Except.ok ⟨true, compIDs⟩, up.1 ++ mrk.1)

theorem uploadOne_all_ok (env : CompactionEnv) (id : Nat)
    (h1 : env.injectMetaOk id = true) (h2 : env.removeTombstonesOk id = true)
    (h3 : env.verifyOk id = true) (h4 : env.uploadOk id = true) :
    uploadOne env id = ([Event.verified id, Event.uploaded id], none) := by
  unfold uploadOne
  rw [if_neg (by simp [h1]), if_neg (by simp [h2]), if_neg (by simp [h3]),
    if_neg (by simp [h4])]

theorem uploadOne_no_marks (env : CompactionEnv) (id : Nat) :
    ∀ e ∈ (uploadOne env id).1, ∀ i, e ≠ Event.markedForDeletion i := by
  intro e he i
  unfold uploadOne at he
  by_cases h1 : env.injectMetaOk id = false
  · simp [h1] at he
  · by_cases h2 : env.removeTombstonesOk id = false
    · simp [h1, h2] at he
    · by_cases h3 : env.verifyOk id = false
      · simp [h1, h2, h3] at he
      · by_cases h4 : env.uploadOk id = false
        · simp [h1, h2, h3, h4] at he
          subst he
          simp
        · simp [h1, h2, h3, h4] at he
          rcases he with rfl | rfl <;> simp

theorem uploadPhase_cons_some (env : CompactionEnv) (id : Nat) (ids : List Nat)
    (e : String) (h : (uploadOne env id).2 = some e) :
    uploadPhase env (id :: ids) = ((uploadOne env id).1, some e) := by
  simp only [uploadPhase, h]

theorem uploadPhase_cons_none (env : CompactionEnv) (id : Nat) (ids : List Nat)
    (h : (uploadOne env id).2 = none) :
    uploadPhase env (id :: ids)
      = ((uploadOne env id).1 ++ (uploadPhase env ids).1, (uploadPhase env ids).2) := by
  simp only [uploadPhase, h]

theorem uploadPhase_no_marks (env : CompactionEnv) (ids : List Nat) :
    ∀ e ∈ (uploadPhase env ids).1, ∀ i, e ≠ Event.markedForDeletion i := by
  induction ids with
  | nil => intro e he; cases he
  | cons id rest ih =>
    intro e he i
    cases hu : (uploadOne env id).2 with
    | some e2 =>
      rw [uploadPhase_cons_some env id rest e2 hu] at he
      exact uploadOne_no_marks env id e he i
    | none =>
      rw [uploadPhase_cons_none env id rest hu] at he
      rcases List.mem_append.mp he with he | he
      · exact uploadOne_no_marks env id e he i
      · exact ih e he i

theorem uploadPhase_ok_events (env : CompactionEnv) (ids : List Nat)
    (h : (uploadPhase env ids).2 = none) :
    ∀ id ∈ ids, Event.verified id ∈ (uploadPhase env ids).1 ∧
      Event.uploaded id ∈ (uploadPhase env ids).1 := by
  induction ids with
  | nil => intro id hid; cases hid
  | cons x rest ih =>
    intro id hid
    cases hu : (uploadOne env x).2 with
    | some e =>
      rw [uploadPhase_cons_some env x rest e hu] at h
      cases h
    | none =>
      have hok : env.injectMetaOk x = true ∧ env.removeTombstonesOk x = true ∧
          env.verifyOk x = true ∧ env.uploadOk x = true := by
        by_contra hc
        unfold uploadOne at hu
        by_cases h1 : env.injectMetaOk x = false
        · rw [if_pos h1] at hu; cases hu
        rw [if_neg h1] at hu
        by_cases h2 : env.removeTombstonesOk x = false
        · rw [if_pos h2] at hu; cases hu
        rw [if_neg h2] at hu
        by_cases h3 : env.verifyOk x = false
        · rw [if_pos h3] at hu; cases hu
        rw [if_neg h3] at hu
        by_cases h4 : env.uploadOk x = false
        · rw [if_pos h4] at hu; cases hu
        exact hc ⟨by revert h1; cases env.injectMetaOk x <;> simp,
          by revert h2; cases env.removeTombstonesOk x <;> simp,
          by revert h3; cases env.verifyOk x <;> simp,
          by revert h4; cases env.uploadOk x <;> simp⟩
      have hone := uploadOne_all_ok env x hok.1 hok.2.1 hok.2.2.1 hok.2.2.2
      rw [uploadPhase_cons_none env x rest hu] at h ⊢
      rw [hone]
      simp only [List.mem_append]
      rcases List.mem_cons.mp hid with rfl | hid
      · exact ⟨Or.inl (by simp), Or.inl (by simp)⟩
      · rcases ih h id hid with ⟨hv, hup⟩
        exact ⟨Or.inr hv, Or.inr hup⟩

theorem uploadPhase_fails (env : CompactionEnv) (ids : List Nat)
    (hpre : ∀ id ∈ ids, env.injectMetaOk id = true ∧
      env.removeTombstonesOk id = true ∧ env.verifyOk id = true)
    (hfail : ∃ id ∈ ids, env.uploadOk id = false) :
    ∃ e, (uploadPhase env ids).2 = some e := by
  induction ids with
  | nil => rcases hfail with ⟨id, hid, _⟩; cases hid
  | cons x rest ih =>
    rcases hpre x (List.mem_cons_self x rest) with ⟨h1, h2, h3⟩
    by_cases hx : env.uploadOk x = false
    · have hone : uploadOne env x = ([Event.verified x], some "upload failed") := by
        unfold uploadOne
        rw [if_neg (by simp [h1]), if_neg (by simp [h2]), if_neg (by simp [h3]),
          if_pos hx]
      refine ⟨"upload failed", ?_⟩
      rw [uploadPhase_cons_some env x rest "upload failed" (by rw [hone])]
    · have hx2 : env.uploadOk x = true := by
        revert hx; cases env.uploadOk x <;> simp
      have hone := uploadOne_all_ok env x h1 h2 h3 hx2
      rcases hfail with ⟨id, hid, hfl⟩
      rcases List.mem_cons.mp hid with rfl | hid2
      · exact absurd hfl hx
      · rcases ih (fun i hi => hpre i (List.mem_cons_of_mem x hi))
          ⟨id, hid2, hfl⟩ with ⟨e, he⟩
        refine ⟨e, ?_⟩
        rw [uploadPhase_cons_none env x rest (by rw [hone])]
        exact he

theorem downloadPhase_ok (env : CompactionEnv) (ms : List Meta)
    (h : ∀ m ∈ ms, env.downloadAndCheck m = Except.ok ()) :
    downloadPhase env ms = Except.ok () := by
  induction ms with
  | nil => rfl
  | cons m rest ih =>
    simp only [downloadPhase, h m (List.mem_cons_self m rest)]
    exact ih (fun x hx => h x (List.mem_cons_of_mem m hx))

theorem markSourcesPhase_ok_events (env : CompactionEnv) (ms : List Meta)
    (h : (markSourcesPhase env ms).2 = none) :
    ∀ m ∈ ms, Event.markedForDeletion m.ulid ∈ (markSourcesPhase env ms).1 := by
  induction ms with
  | nil => intro m hm; cases hm
  | cons x rest ih =>
    intro m hm
    by_cases hx : env.markOk x.ulid
    · simp only [markSourcesPhase, if_pos hx] at h ⊢
      rcases List.mem_cons.mp hm with rfl | hm
      · exact List.mem_cons_self _ _
      · exact List.mem_cons_of_mem _ (ih h m hm)
    · simp only [markSourcesPhase, if_neg hx] at h
      cases h

/-- Claim C1 as stated, at one environment: a successful job with a non-empty
plan has marked every source for deletion, and every non-zero output was
verified and uploaded before any source was marked. -/
def C1ClaimAt (env : CompactionEnv) : Prop :=
  ∀ res tr toCompact,
    runCompactionJob env = (Except.ok res, tr) →
    env.planResult = Except.ok toCompact → toCompact ≠ [] →
    (∀ m ∈ toCompact, Event.markedForDeletion m.ulid ∈ tr) ∧
    (∃ tr1 tr2, tr = tr1 ++ tr2 ∧
      (∀ id ∈ res.compIDs, id ≠ 0 →
        Event.verified id ∈ tr1 ∧ Event.uploaded id ∈ tr1) ∧
      (∀ e ∈ tr1, ∀ i, e ≠ Event.markedForDeletion i) ∧
      (∀ m ∈ toCompact, Event.markedForDeletion m.ulid ∈ tr2))

/-- An environment where the plan holds one block of 5 samples, every bucket
operation succeeds, and the compaction produces only the zero ULID (the merged
block would be empty). -/
def cenvEmptyOutput : CompactionEnv :=
  { planResult := Except.ok [⟨1, 5⟩]
    downloadAndCheck := fun _ => Except.ok ()
    compactResult := Except.ok [0]
    injectMetaOk := fun _ => true
    removeTombstonesOk := fun _ => true
    verifyOk := fun _ => true
    uploadOk := fun _ => true
    markOk := fun _ => true }

/-- Counterexample to C1 as stated: when the compaction result is the zero
ULID, runCompactionJob succeeds without marking the 5-sample source block, so
a successful job with a non-empty plan does not imply deletion markers for
every source. -/
theorem runCompactionJob_claim_cex : ¬ C1ClaimAt cenvEmptyOutput := by
  intro h
  have hrun : runCompactionJob cenvEmptyOutput = (Except.ok ⟨true, []⟩, []) := rfl
  have h1 := (h ⟨true, []⟩ [] [⟨1, 5⟩] hrun rfl (by simp)).1 ⟨1, 5⟩ (by simp)
  cases h1

/-- C1 amended: if runCompactionJob completes without error, the planner
returned a non-empty plan, and the compaction produced at least one non-zero
output block, then every source block of the plan has a deletion marker
written, and every non-zero-ULID output block was verified and uploaded before
any source was marked (the trace splits into an upload part containing all
verify/upload events and no marker, followed by the marker part). -/
theorem runCompactionJob_success_marks_sources (env : CompactionEnv)
    (res : JobResult) (tr : List Event) (toCompact : List Meta)
    (hrun : runCompactionJob env = (Except.ok res, tr))
    (hplan : env.planResult = Except.ok toCompact)
    (hne : toCompact ≠ [])
    (hnz : hasNonZeroULIDs res.compIDs = true) :
    ∃ tr1 tr2, tr = tr1 ++ tr2 ∧
      (∀ id ∈ res.compIDs, id ≠ 0 →
        Event.verified id ∈ tr1 ∧ Event.uploaded id ∈ tr1) ∧
      (∀ e ∈ tr1, ∀ i, e ≠ Event.markedForDeletion i) ∧
      (∀ m ∈ toCompact, Event.markedForDeletion m.ulid ∈ tr2) := by
  have hne2 : toCompact.isEmpty = false := by
    cases toCompact with
    | nil => exact absurd rfl hne
    | cons a b => rfl
  unfold runCompactionJob at hrun
  rw [hplan] at hrun
  simp only [hne2, Bool.false_eq_true, if_false] at hrun
  cases hdl : downloadPhase env toCompact with
  | error e =>
    rw [hdl] at hrun
    simp at hrun
  | ok u =>
    rw [hdl] at hrun
    simp only at hrun
    cases hcomp : env.compactResult with
    | error e =>
      rw [hcomp] at hrun
      simp at hrun
    | ok compIDs =>
      rw [hcomp] at hrun
      simp only at hrun
      by_cases hz : hasNonZeroULIDs compIDs = false
      · rw [if_pos hz] at hrun
        have hres : res = ⟨true, []⟩ := by
          have := congrArg Prod.fst hrun
          simp only at this
          cases this
          rfl
        rw [hres] at hnz
        simp [hasNonZeroULIDs] at hnz
      · rw [if_neg hz] at hrun
        cases hup : (uploadPhase env (compIDs.filter (fun id => id != 0))).2 with
        | some e =>
          rw [hup] at hrun
          simp at hrun
        | none =>
          rw [hup] at hrun
          simp only at hrun
          cases hmk : (markSourcesPhase env toCompact).2 with
          | some e =>
            rw [hmk] at hrun
            simp at hrun
          | none =>
            rw [hmk] at hrun
            simp only at hrun
            have hres : (Except.ok ⟨true, compIDs⟩ : Except String JobResult)
                  = Except.ok res ∧
                (uploadPhase env (compIDs.filter (fun id => id != 0))).1
                  ++ (markSourcesPhase env toCompact).1 = tr := by
              constructor
              · exact congrArg Prod.fst hrun
              · exact congrArg Prod.snd hrun
            have hres1 : res = ⟨true, compIDs⟩ := by
              cases hres.1
              rfl
            refine ⟨(uploadPhase env (compIDs.filter (fun id => id != 0))).1,
              (markSourcesPhase env toCompact).1, hres.2.symm, ?_, ?_, ?_⟩
            · intro id hid hid0
              have hmem : id ∈ compIDs.filter (fun x => x != 0) := by
                rw [List.mem_filter]
                refine ⟨?_, by simpa using hid0⟩
                rw [hres1] at hid
                exact hid
              exact uploadPhase_ok_events env
                (compIDs.filter (fun x => x != 0)) hup id hmem
            · exact uploadPhase_no_marks env (compIDs.filter (fun x => x != 0))
            · exact markSourcesPhase_ok_events env toCompact hmk

/-- An environment like cenvEmptyOutput but where the compaction produces the
single non-zero output block 7. -/
def cenvHappy : CompactionEnv :=
  { planResult := Except.ok [⟨1, 5⟩, ⟨2, 3⟩]
    downloadAndCheck := fun _ => Except.ok ()
    compactResult := Except.ok [7]
    injectMetaOk := fun _ => true
    removeTombstonesOk := fun _ => true
    verifyOk := fun _ => true
    uploadOk := fun _ => true
    markOk := fun _ => true }

/-- Witness for the amended C1 at a concrete environment: a two-block plan
compacted into output 7; the job succeeds, output 7 is verified and uploaded
first, and both sources are marked afterwards. -/
theorem runCompactionJob_success_marks_sources_witness :
    ∃ tr1 tr2,
      ([Event.verified 7, Event.uploaded 7, Event.markedForDeletion 1,
          Event.markedForDeletion 2] : List Event) = tr1 ++ tr2 ∧
      (∀ id ∈ ([7] : List Nat), id ≠ 0 →
        Event.verified id ∈ tr1 ∧ Event.uploaded id ∈ tr1) ∧
      (∀ e ∈ tr1, ∀ i, e ≠ Event.markedForDeletion i) ∧
      (∀ m ∈ ([⟨1, 5⟩, ⟨2, 3⟩] : List Meta),
        Event.markedForDeletion m.ulid ∈ tr2) :=
  runCompactionJob_success_marks_sources cenvHappy ⟨true, [7]⟩
    [Event.verified 7, Event.uploaded 7, Event.markedForDeletion 1,
      Event.markedForDeletion 2] [⟨1, 5⟩, ⟨2, 3⟩] rfl rfl (by simp) (by decide)

/-- C2: if the plan is non-empty, the sources all download and health-check
cleanly, the compaction produces at least one non-zero output, finalization,
tombstone removal and verification succeed for every non-zero output, but
uploading some non-zero output block fails, then runCompactionJob returns an
error and no block at all (in particular no source of the job) has a deletion
marker written, so a later iteration can retry the same job. -/
theorem runCompactionJob_upload_failure_no_marks (env : CompactionEnv)
    (toCompact : List Meta) (compIDs : List Nat)
    (hplan : env.planResult = Except.ok toCompact)
    (hne : toCompact ≠ [])
    (hdl : ∀ m ∈ toCompact, env.downloadAndCheck m = Except.ok ())
    (hcomp : env.compactResult = Except.ok compIDs)
    (hnz : hasNonZeroULIDs compIDs = true)
    (hpre : ∀ id ∈ compIDs, id ≠ 0 →
      env.injectMetaOk id = true ∧ env.removeTombstonesOk id = true ∧
      env.verifyOk id = true)
    (hfail : ∃ id ∈ compIDs, id ≠ 0 ∧ env.uploadOk id = false) :
    (∃ e, (runCompactionJob env).1 = Except.error e) ∧
    (∀ i, Event.markedForDeletion i ∉ (runCompactionJob env).2) := by
  have hfail2 : ∃ id ∈ compIDs.filter (fun x => x != 0), env.uploadOk id = false := by
    rcases hfail with ⟨id, hid, hid0, hfl⟩
    exact ⟨id, List.mem_filter.mpr ⟨hid, by simpa using hid0⟩, hfl⟩
  have hpre2 : ∀ id ∈ compIDs.filter (fun x => x != 0),
      env.injectMetaOk id = true ∧ env.removeTombstonesOk id = true ∧
      env.verifyOk id = true := by
    intro id hid
    rcases List.mem_filter.mp hid with ⟨hmem, hne0⟩
    exact hpre id hmem (by simpa using hne0)
  rcases uploadPhase_fails env (compIDs.filter (fun x => x != 0)) hpre2 hfail2 with
    ⟨e, he⟩
  have hne2 : toCompact.isEmpty = false := by
    cases toCompact with
    | nil => exact absurd rfl hne
    | cons a b => rfl
  have hdlok := downloadPhase_ok env toCompact hdl
  have hrun : runCompactionJob env
      = (Except.error e, (uploadPhase env (compIDs.filter (fun x => x != 0))).1) := by
    unfold runCompactionJob
    rw [hplan]
    simp only [hne2, Bool.false_eq_true, if_false, hdlok, hcomp, hnz, he]
    simp [hnz]
  rw [hrun]
  refine ⟨⟨e, rfl⟩, ?_⟩
  intro i hmem
  exact uploadPhase_no_marks env (compIDs.filter (fun x => x != 0))
    (Event.markedForDeletion i) hmem i rfl

/-- Witness for C2 at a concrete environment: one-block plan compacted into
output 7 whose upload fails; the job errors and writes no deletion marker. -/
theorem runCompactionJob_upload_failure_no_marks_witness :
    (∃ e, (runCompactionJob
      { planResult := Except.ok [⟨1, 5⟩]
        downloadAndCheck := fun _ => Except.ok ()
        compactResult := Except.ok [7]
        injectMetaOk := fun _ => true
        removeTombstonesOk := fun _ => true
        verifyOk := fun _ => true
        uploadOk := fun _ => false
        markOk := fun _ => true }).1 = Except.error e) ∧
    (∀ i, Event.markedForDeletion i ∉ (runCompactionJob
      { planResult := Except.ok [⟨1, 5⟩]
        downloadAndCheck := fun _ => Except.ok ()
        compactResult := Except.ok [7]
        injectMetaOk := fun _ => true
        removeTombstonesOk := fun _ => true
        verifyOk := fun _ => true
        uploadOk := fun _ => false
        markOk := fun _ => true }).2) :=
  runCompactionJob_upload_failure_no_marks _ [⟨1, 5⟩] [7] rfl (by simp)
    (fun m _ => rfl) rfl (by decide)
    (fun id _ _ => ⟨rfl, rfl, rfl⟩) ⟨7, by simp, by decide, rfl⟩

end Compactor

namespace SeriesIter

/-- A float sample: millisecond timestamp and value. The float64 payload is
modelled as an integer identifier; no arithmetic is ever performed on it. -/
structure Sample where
  ts : Int
  value : Int
  deriving DecidableEq, Inhabited

/-- A histogram sample: timestamp, the integer/float variant flag, and an
identifier for the histogram payload. -/
structure Histogram where
  ts : Int
  isFloatHistogram : Bool
  payload : Nat
  deriving DecidableEq, Inhabited

/-- Embedding of ConcreteSeries: the float samples and the histogram samples
of one in-memory series. -/
structure ConcreteSeries where
  samples : List Sample
  histograms : List Histogram
  deriving DecidableEq

/-- The chunkenc value types the iterator returns. -/
inductive ValueType where
  | valNone
  | valFloat
  | valHistogram
  | valFloatHistogram
  deriving DecidableEq

/-- Embedding of concreteSeriesIterator state: the float and histogram
cursors (Go ints, starting at -1) and the atHisto flag. -/
structure IterState where
  curFloat : Int
  curHisto : Int
  atHisto : Bool
  deriving DecidableEq

/-- NewConcreteSeriesIterator: both cursors at -1. -/
def newIterState : IterState := ⟨-1, -1, false⟩

/-- The value type reported for a histogram sample. -/
def histValueType (h : Histogram) : ValueType :=
  if h.isFloatHistogram then ValueType.valFloatHistogram else ValueType.valHistogram

/-- Embedding of concreteSeriesIterator.Next: when both lists are exhausted
report ValNone; when only histograms remain advance the histogram cursor; when
only floats remain advance the float cursor; otherwise advance the float
cursor exactly when the next float timestamp is strictly smaller than the next
histogram timestamp (at equal timestamps the histogram cursor advances). -/
def iterNext (c : ConcreteSeries) : IterState → ValueType × IterState
  | ⟨cf, ch, ah⟩ =>
    if cf + 1 ≥ (c.samples.length : Int) ∧ ch + 1 ≥ (c.histograms.length : Int) then
      (ValueType.valNone, ⟨cf + 1, ch + 1, ah⟩)
    else if cf + 1 ≥ (c.samples.length : Int) then
      (histValueType (c.histograms.getD (ch + 1).toNat default), ⟨cf, ch + 1, true⟩)
    else if ch + 1 ≥ (c.histograms.length : Int) then
      (ValueType.valFloat, ⟨cf + 1, ch, false⟩)
    else if (c.samples.getD (cf + 1).toNat default).ts
        < (c.histograms.getD (ch + 1).toNat default).ts then
      (ValueType.valFloat, ⟨cf + 1, ch, false⟩)
    else
      (histValueType (c.histograms.getD (ch + 1).toNat default), ⟨cf, ch + 1, true⟩)

/-- What the accessors (At / AtHistogram / AtFloatHistogram) expose at the
current cursor. -/
inductive ReadItem where
  | floatSample (s : Sample)
  | histoSample (h : Histogram)
  deriving DecidableEq

/-- The sample exposed at the current cursor position: the histogram under the
histogram cursor when atHisto, the float sample under the float cursor
otherwise. -/
def iterAt (c : ConcreteSeries) : IterState → ReadItem
  | ⟨cf, ch, ah⟩ =>
    if ah then ReadItem.histoSample (c.histograms.getD ch.toNat default)
    else ReadItem.floatSample (c.samples.getD cf.toNat default)

/-- Repeatedly call Next, observing the sample at the cursor after each step,
until ValNone; fuel bounds the number of steps. -/
def readAux (c : ConcreteSeries) : Nat → IterState → List ReadItem
  | 0, _ => []
  | fuel + 1, st =>
    let r := iterNext c st
    if r.1 = ValueType.valNone then []
    else iterAt c r.2 :: readAux c fuel r.2

/-- Reading a whole series back through the iterator. -/
def readSeries (c : ConcreteSeries) : List ReadItem :=
  readAux c (c.samples.length + c.histograms.length + 1) newIterState

/-- The two-pointer merge the iterator implements: take the next float while
its timestamp is strictly smaller than the next histogram timestamp, otherwise
take the histogram. -/
def mergeSeq : List Sample → List Histogram → List ReadItem
  | [], hs => hs.map ReadItem.histoSample
  | f :: fs, [] => (f :: fs).map ReadItem.floatSample
  | f :: fs, h :: hs =>
    if f.ts < h.ts then ReadItem.floatSample f :: mergeSeq fs (h :: hs)
    else ReadItem.histoSample h :: mergeSeq (f :: fs) hs

theorem int_shift (n : Nat) : ((n : Int) - 1) + 1 = ((n + 1 : Nat) : Int) - 1 := by
  push_cast
  ring

theorem int_toNat_shift (n : Nat) : (((n + 1 : Nat) : Int) - 1).toNat = n := by
  have h : ((n + 1 : Nat) : Int) - 1 = (n : Int) := by push_cast; ring
  rw [h, Int.toNat_natCast]

theorem histValueType_ne_none (h : Histogram) : histValueType h ≠ ValueType.valNone := by
  unfold histValueType
  cases h.isFloatHistogram <;> simp

theorem iterNext_done (c : ConcreteSeries) (nf nh : Nat) (b : Bool)
    (hF : c.samples.length ≤ nf) (hH : c.histograms.length ≤ nh) :
    iterNext c ⟨(nf : Int) - 1, (nh : Int) - 1, b⟩
      = (ValueType.valNone,
         ⟨((nf + 1 : Nat) : Int) - 1, ((nh + 1 : Nat) : Int) - 1, b⟩) := by
  simp only [iterNext]
  rw [if_pos (by constructor <;> omega)]
  rw [int_shift nf, int_shift nh]

theorem iterNext_histo_only (c : ConcreteSeries) (nf nh : Nat) (b : Bool)
    (hF : c.samples.length ≤ nf) (hH : nh < c.histograms.length) :
    iterNext c ⟨(nf : Int) - 1, (nh : Int) - 1, b⟩
      = (histValueType (c.histograms.getD nh default),
         ⟨(nf : Int) - 1, ((nh + 1 : Nat) : Int) - 1, true⟩) := by
  simp only [iterNext]
  rw [int_shift nf, int_shift nh, int_toNat_shift nh]
  rw [if_neg (by omega)]
  rw [if_pos (by omega)]

theorem iterNext_float_only (c : ConcreteSeries) (nf nh : Nat) (b : Bool)
    (hF : nf < c.samples.length) (hH : c.histograms.length ≤ nh) :
    iterNext c ⟨(nf : Int) - 1, (nh : Int) - 1, b⟩
      = (ValueType.valFloat, ⟨((nf + 1 : Nat) : Int) - 1, (nh : Int) - 1, false⟩) := by
  simp only [iterNext]
  rw [int_shift nf, int_shift nh, int_toNat_shift nf]
  rw [if_neg (by omega)]
  rw [if_neg (by omega)]
  rw [if_pos (by omega)]

theorem iterNext_float_lt (c : ConcreteSeries) (nf nh : Nat) (b : Bool)
    (hF : nf < c.samples.length) (hH : nh < c.histograms.length)
    (hlt : (c.samples.getD nf default).ts < (c.histograms.getD nh default).ts) :
    iterNext c ⟨(nf : Int) - 1, (nh : Int) - 1, b⟩
      = (ValueType.valFloat, ⟨((nf + 1 : Nat) : Int) - 1, (nh : Int) - 1, false⟩) := by
  simp only [iterNext]
  rw [int_shift nf, int_shift nh, int_toNat_shift nf, int_toNat_shift nh]
  rw [if_neg (by omega)]
  rw [if_neg (by omega)]
  rw [if_neg (by omega)]
  rw [if_pos hlt]

theorem iterNext_histo_ge (c : ConcreteSeries) (nf nh : Nat) (b : Bool)
    (hF : nf < c.samples.length) (hH : nh < c.histograms.length)
    (hge : ¬ (c.samples.getD nf default).ts < (c.histograms.getD nh default).ts) :
    iterNext c ⟨(nf : Int) - 1, (nh : Int) - 1, b⟩
      = (histValueType (c.histograms.getD nh default),
         ⟨(nf : Int) - 1, ((nh + 1 : Nat) : Int) - 1, true⟩) := by
  simp only [iterNext]
  rw [int_shift nf, int_shift nh, int_toNat_shift nf, int_toNat_shift nh]
  rw [if_neg (by omega)]
  rw [if_neg (by omega)]
  rw [if_neg (by omega)]
  rw [if_neg hge]

theorem iterAt_histo (c : ConcreteSeries) (cf : Int) (nh : Nat) :
    iterAt c ⟨cf, ((nh + 1 : Nat) : Int) - 1, true⟩
      = ReadItem.histoSample (c.histograms.getD nh default) := by
  simp only [iterAt, if_true]
  rw [int_toNat_shift nh]

theorem mergeSeq_nil_left (hs : List Histogram) :
    mergeSeq [] hs = hs.map ReadItem.histoSample := by
  simp [mergeSeq]

theorem mergeSeq_nil_right (fs : List Sample) :
    mergeSeq fs [] = fs.map ReadItem.floatSample := by
  cases fs with
  | nil => simp [mergeSeq]
  | cons f fs => simp [mergeSeq]

theorem iterAt_float (c : ConcreteSeries) (nf : Nat) (ch : Int) :
    iterAt c ⟨((nf + 1 : Nat) : Int) - 1, ch, false⟩
      = ReadItem.floatSample (c.samples.getD nf default) := by
  simp only [iterAt]
  rw [if_neg (by simp), int_toNat_shift nf]

theorem readAux_eq_mergeSeq (c : ConcreteSeries) (fuel : Nat) :
    ∀ (nf nh : Nat) (b : Bool),
    nf ≤ c.samples.length → nh ≤ c.histograms.length →
    c.samples.length - nf + (c.histograms.length - nh) < fuel →
    readAux c fuel ⟨(nf : Int) - 1, (nh : Int) - 1, b⟩
      = mergeSeq (c.samples.drop nf) (c.histograms.drop nh) := by
  induction fuel with
  | zero => intro nf nh b h1 h2 h3; omega
  | succ fuel ih =>
    intro nf nh b hnf hnh hfuel
    by_cases hF : c.samples.length ≤ nf
    · by_cases hH : c.histograms.length ≤ nh
      · have hdS : c.samples.drop nf = [] := List.drop_eq_nil_of_le hF
        have hdH : c.histograms.drop nh = [] := List.drop_eq_nil_of_le hH
        simp only [readAux, iterNext_done c nf nh b hF hH]
        rw [if_pos trivial, hdS, hdH, mergeSeq_nil_left, List.map_nil]
      · have hH2 : nh < c.histograms.length := by omega
        simp only [readAux, iterNext_histo_only c nf nh b hF hH2]
        rw [if_neg (by simpa using histValueType_ne_none (c.histograms.getD nh default))]
        rw [iterAt_histo, ih nf (nh + 1) true hnf (by omega) (by omega)]
        have hdS : c.samples.drop nf = [] := List.drop_eq_nil_of_le hF
        rw [hdS, mergeSeq_nil_left, mergeSeq_nil_left, List.drop_eq_getElem_cons hH2,
          List.map_cons, List.getD_eq_getElem (c.histograms) default hH2]
    · have hF2 : nf < c.samples.length := by omega
      by_cases hH : c.histograms.length ≤ nh
      · have hdH : c.histograms.drop nh = [] := List.drop_eq_nil_of_le hH
        simp only [readAux, iterNext_float_only c nf nh b hF2 hH]
        rw [if_neg (by simp)]
        rw [iterAt_float, ih (nf + 1) nh false (by omega) hnh (by omega)]
        rw [hdH, mergeSeq_nil_right, mergeSeq_nil_right, List.drop_eq_getElem_cons hF2,
          List.map_cons, List.getD_eq_getElem (c.samples) default hF2]
      · have hH2 : nh < c.histograms.length := by omega
        by_cases hlt : (c.samples.getD nf default).ts < (c.histograms.getD nh default).ts
        · simp only [readAux, iterNext_float_lt c nf nh b hF2 hH2 hlt]
          rw [if_neg (by simp)]
          rw [iterAt_float, ih (nf + 1) nh false (by omega) hnh (by omega)]
          rw [List.drop_eq_getElem_cons hF2, List.drop_eq_getElem_cons hH2]
          rw [List.getD_eq_getElem (c.samples) default hF2,
            List.getD_eq_getElem (c.histograms) default hH2] at hlt
          rw [List.getD_eq_getElem (c.samples) default hF2]
          simp only [mergeSeq, if_pos hlt]
        · simp only [readAux, iterNext_histo_ge c nf nh b hF2 hH2 hlt]
          rw [if_neg (by simpa using histValueType_ne_none (c.histograms.getD nh default))]
          rw [iterAt_histo, ih nf (nh + 1) true hnf (by omega) (by omega)]
          rw [List.drop_eq_getElem_cons hF2, List.drop_eq_getElem_cons hH2]
          rw [List.getD_eq_getElem (c.samples) default hF2,
            List.getD_eq_getElem (c.histograms) default hH2] at hlt
          rw [List.getD_eq_getElem (c.histograms) default hH2]
          simp only [mergeSeq, if_neg hlt]

/-- readSeries is the two-pointer merge of the float and histogram lists. -/
theorem readSeries_eq_mergeSeq (c : ConcreteSeries) :
    readSeries c = mergeSeq c.samples c.histograms := by
  unfold readSeries
  have h0 : ((0 : Nat) : Int) - 1 = (-1 : Int) := by norm_num
  have := readAux_eq_mergeSeq c (c.samples.length + c.histograms.length + 1)
    0 0 false (by omega) (by omega) (by omega)
  rw [h0] at this
  simpa [newIterState] using this

theorem mem_mergeSeq (fs : List Sample) (hs : List Histogram) :
    ∀ x, x ∈ mergeSeq fs hs ↔
      (∃ f ∈ fs, x = ReadItem.floatSample f) ∨
      (∃ h ∈ hs, x = ReadItem.histoSample h) := by
  induction fs generalizing hs with
  | nil =>
    intro x
    rw [mergeSeq_nil_left]
    simp only [List.mem_map]
    constructor
    · rintro ⟨a, ha, rfl⟩
      exact Or.inr ⟨a, ha, rfl⟩
    · rintro (⟨g, hg, _⟩ | ⟨a, ha, rfl⟩)
      · cases hg
      · exact ⟨a, ha, rfl⟩
  | cons f fs ihf =>
    induction hs with
    | nil =>
      intro x
      rw [mergeSeq_nil_right]
      simp only [List.mem_map]
      constructor
      · rintro ⟨a, ha, rfl⟩
        exact Or.inl ⟨a, ha, rfl⟩
      · rintro (⟨a, ha, rfl⟩ | ⟨k, hk, _⟩)
        · exact ⟨a, ha, rfl⟩
        · cases hk
    | cons h hs ihh =>
      intro x
      by_cases hc : f.ts < h.ts
      · rw [show mergeSeq (f :: fs) (h :: hs)
            = ReadItem.floatSample f :: mergeSeq fs (h :: hs) from by
          simp only [mergeSeq, if_pos hc]]
        rw [List.mem_cons, ihf (h :: hs) x]
        constructor
        · rintro (rfl | (⟨g, hg, rfl⟩ | ⟨k, hk, rfl⟩))
          · exact Or.inl ⟨f, List.mem_cons_self f fs, rfl⟩
          · exact Or.inl ⟨g, List.mem_cons_of_mem f hg, rfl⟩
          · exact Or.inr ⟨k, hk, rfl⟩
        · rintro (⟨g, hg, rfl⟩ | ⟨k, hk, rfl⟩)
          · rcases List.mem_cons.mp hg with rfl | hg
            · exact Or.inl rfl
            · exact Or.inr (Or.inl ⟨g, hg, rfl⟩)
          · exact Or.inr (Or.inr ⟨k, hk, rfl⟩)
      · rw [show mergeSeq (f :: fs) (h :: hs)
            = ReadItem.histoSample h :: mergeSeq (f :: fs) hs from by
          simp only [mergeSeq, if_neg hc]]
        rw [List.mem_cons, ihh x]
        constructor
        · rintro (rfl | (⟨g, hg, rfl⟩ | ⟨k, hk, rfl⟩))
          · exact Or.inr ⟨h, List.mem_cons_self h hs, rfl⟩
          · exact Or.inl ⟨g, hg, rfl⟩
          · exact Or.inr ⟨k, List.mem_cons_of_mem h hk, rfl⟩
        · rintro (⟨g, hg, rfl⟩ | ⟨k, hk, rfl⟩)
          · exact Or.inr (Or.inl ⟨g, hg, rfl⟩)
          · rcases List.mem_cons.mp hk with rfl | hk
            · exact Or.inl rfl
            · exact Or.inr (Or.inr ⟨k, hk, rfl⟩)

/-- Modelled from the spec: the ingester TSDB append path is not under src/.
Per §4.3 and the integration test comment (a histogram pushed at the timestamp
of an existing float sample fails to get appended because the float is already
there), the histograms that survive ingestion are those whose timestamp
collides with no float sample of the series. -/
def appendedHistograms (floats : List Sample) (hs : List Histogram) : List Histogram :=
  hs.filter (fun h => !(floats.any (fun f => f.ts == h.ts)))

/-- C4: within one series, when a float sample and a histogram sample share
timestamp t (and t is the only collision), the float wins: the histogram at t
is dropped by the append path, every other (in particular every later)
histogram is accepted, and reading the series back returns the float value at
t and histograms only at other timestamps. -/
theorem float_wins_at_shared_timestamp (floats : List Sample)
    (hs : List Histogram) (t v : Int)
    (hmemF : Sample.mk t v ∈ floats)
    (hmemH : ∃ h ∈ hs, h.ts = t)
    (honly : ∀ h ∈ hs, h.ts = t ∨ ∀ f ∈ floats, f.ts ≠ h.ts) :
    (∀ h ∈ appendedHistograms floats hs, h.ts ≠ t) ∧
    (∀ h ∈ hs, h.ts ≠ t → h ∈ appendedHistograms floats hs) ∧
    (ReadItem.floatSample ⟨t, v⟩
      ∈ readSeries ⟨floats, appendedHistograms floats hs⟩) ∧
    (∀ h, ReadItem.histoSample h
      ∈ readSeries ⟨floats, appendedHistograms floats hs⟩ → h.ts ≠ t) := by
  have hkept : ∀ h ∈ appendedHistograms floats hs, h.ts ≠ t := by
    intro h hh
    rcases List.mem_filter.mp hh with ⟨_, hcond⟩
    intro hts
    have hany : floats.any (fun f => f.ts == h.ts) = true := by
      rw [List.any_eq_true]
      exact ⟨⟨t, v⟩, hmemF, by simp [hts]⟩
    rw [hany] at hcond
    cases hcond
  refine ⟨hkept, ?_, ?_, ?_⟩
  · intro h hh hne
    rcases honly h hh with hts | hnone
    · exact absurd hts hne
    · refine List.mem_filter.mpr ⟨hh, ?_⟩
      have hfalse : floats.any (fun f => f.ts == h.ts) = false := by
        rw [List.any_eq_false]
        intro f hf
        simp only [beq_iff_eq]
        exact hnone f hf
      rw [hfalse]
      rfl
  · rw [readSeries_eq_mergeSeq]
    rw [mem_mergeSeq floats (appendedHistograms floats hs)]
    exact Or.inl ⟨⟨t, v⟩, hmemF, rfl⟩
  · intro h hmem
    rw [readSeries_eq_mergeSeq] at hmem
    rw [mem_mergeSeq floats (appendedHistograms floats hs)] at hmem
    rcases hmem with ⟨f, _, hfe⟩ | ⟨k, hk, hke⟩
    · cases hfe
    · have : h = k := by cases hke; rfl
      rw [this]
      exact hkept k hk

/-- The float samples of the integration test scenario: t, t+10m, t+20m with
values 100, 110, 120 (timestamps scaled to 0, 10, 20). -/
def testFloats : List Sample := [⟨0, 100⟩, ⟨10, 110⟩, ⟨20, 120⟩]

/-- The pushed histograms of the scenario: t+20m, t+30m, t+40m, t+50m. -/
def testHistos : List Histogram := [⟨20, false, 3⟩, ⟨30, false, 4⟩, ⟨40, false, 5⟩, ⟨50, false, 6⟩]

/-- Witness for C4 at the integration test scenario: floats at 0/10/20 and
histograms at 20/30/40/50; the histogram at 20 is dropped, the three later
histograms are accepted, and the read-back contains the float 120 at
timestamp 20 and no histogram at 20. -/
theorem float_wins_at_shared_timestamp_witness :
    (∀ h ∈ appendedHistograms testFloats testHistos, h.ts ≠ 20) ∧
    (∀ h ∈ testHistos, h.ts ≠ 20 → h ∈ appendedHistograms testFloats testHistos) ∧
    (ReadItem.floatSample ⟨20, 120⟩
      ∈ readSeries ⟨testFloats, appendedHistograms testFloats testHistos⟩) ∧
    (∀ h, ReadItem.histoSample h
      ∈ readSeries ⟨testFloats, appendedHistograms testFloats testHistos⟩ →
      h.ts ≠ 20) :=
  float_wins_at_shared_timestamp testFloats testHistos 20 120 (by decide)
    ⟨⟨20, false, 3⟩, by decide, rfl⟩ (by decide)

end SeriesIter
